import Mathlib

/-!
Verification of the PMSAv7 (ARMv7-M) MPU region-translation engine of the
pigweed kernel fragment (`src/pw_kernel/arch/arm_cortex_m/protection_v7.rs`).

The Rust code is shallowly embedded: `usize` is modelled as `Nat` together
with explicit 32-bit overflow checks wherever the Rust `const` evaluator
would panic on overflow (Rust const evaluation panics on any arithmetic
overflow, independent of release/debug mode).  The `const fn` loops of the
source are modelled as structurally recursive functions; the two growth
loops take an explicit iteration budget (`fuel`), instantiated at the call
sites of `calculate_aligned_region` with `33`, which strictly exceeds the
26 doublings possible between the minimum region size (32 bytes) and the
maximum one (2^31 bytes); exhausting the budget yields the distinguished
error `outOfFuel`, which is proved unreachable at every input appearing in
a theorem below (all concrete evaluations produce a real result).

Register values (`RbarVal`, `RasrVal`, `CtrlVal`, `RnrVal`) are provided by
the `regs` crate, which is not part of the repository fragment; they are
modelled from the spec (section 6 register table) as structures of typed
fields, each `with_*` update masking its argument to the spec'd field
width.  Likewise `MemoryRegion`/`MemoryRegionType` come from the
`memory_config` crate and are modelled from the spec's data model
(section 3), and the MPU hardware write semantics used by `install()` are
modelled from the spec (sections 4.4 and 6).
-/

namespace Pmsav7

/-- 2^32: one past the largest `usize` value on the 32-bit Cortex-M targets
this backend compiles for. -/
def U32 : Nat := 0x100000000

/-- `MAX_REGION_SIZE` from `calculate_aligned_region`: 2 GB, SIZE=30. -/
def MAX_REGION_SIZE : Nat := 0x80000000

/-- `KernelConfig::NUM_MPU_REGIONS` for the ast1030 target
(`src/pw_kernel/target/ast1030/config.rs`): Cortex-M4 with PMSAv7 has 8. -/
def NUM_MPU_REGIONS : Nat := 8

/-- The failure modes of the `const` translation code.  In the source these
are `panic!`s (build-time fatal); the spec names the first two
`RegionTooLarge` and `TooManyRegions`.  `arithmeticOverflow` models the
implicit panic of Rust const evaluation on 32-bit arithmetic overflow, and
`outOfFuel` is the (provably unreachable at the inputs considered)
exhaustion of the explicit iteration budget of the embedded loops. -/
inductive MpuError where
  | regionTooLarge
  | tooManyRegions
  | arithmeticOverflow
  | outOfFuel
  deriving DecidableEq, Repr

/-- Decidable equality of `Except` results, so that concrete runs of the
translator can be checked by `decide`. -/
instance exceptDecEq {e a : Type} [DecidableEq e] [DecidableEq a] :
    DecidableEq (Except e a) := fun x y =>
  match x, y with
  | .ok u, .ok v =>
    if h : u = v then .isTrue (by rw [h]) else .isFalse (fun hc => h (Except.ok.inj hc))
  | .error u, .error v =>
    if h : u = v then .isTrue (by rw [h]) else .isFalse (fun hc => h (Except.error.inj hc))
  | .ok _, .error _ => .isFalse (fun hc => Except.noConfusion hc)
  | .error _, .ok _ => .isFalse (fun hc => Except.noConfusion hc)

/-- Modelled from the spec: `MemoryRegionType` of the `memory_config` crate
(not in the repository fragment); the five kinds of section 3's data
model. -/
inductive MemoryRegionType where
  | ReadOnlyData
  | ReadWriteData
  | ReadOnlyExecutable
  | ReadWriteExecutable
  | Device
  deriving DecidableEq, Repr

/-- Modelled from the spec: `MemoryRegion` of the `memory_config` crate
(not in the repository fragment): a kind and a half-open byte range
`[start, end)` of 32-bit addresses (the Rust field `end` is spelled
`end_` here because `end` is a Lean keyword). -/
structure MemoryRegion where
  ty : MemoryRegionType
  start : Nat
  end_ : Nat
  deriving DecidableEq, Repr

/-- PMSAv7 access permissions (`RasrAp` in `regs/mpu/mpu_v7.rs`). -/
inductive RasrAp where
  | NoAccess
  | RwPrivileged
  | RoPrivileged
  | RwAny
  | Reserved1
  | RoPrivileged2
  | RoAny
  | RoAny2
  deriving DecidableEq, Repr

/-- Modelled from the spec: PMSAv7 `RBAR` value (the `regs` bitfield
wrapper is not in the fragment).  Fields per the section 6 register table:
`region[3:0]`, `valid[4]`, `addr[31:5]`; each setter masks to the field
width exactly as the bitfield store does. -/
structure RbarVal where
  valid : Bool := false
  region : Nat := 0
  addr : Nat := 0
  deriving DecidableEq, Repr

def RbarVal.const_default : RbarVal := {}

def RbarVal.with_valid (v : RbarVal) (b : Bool) : RbarVal := { v with valid := b }

def RbarVal.with_region (v : RbarVal) (n : Nat) : RbarVal := { v with region := n &&& 0xF }

def RbarVal.with_addr (v : RbarVal) (a : Nat) : RbarVal := { v with addr := a &&& 0xFFFFFFE0 }

/-- Modelled from the spec: PMSAv7 `RASR` value, fields per the section 6
register table: `enable[0]`, `size[5:1]`, `srd[15:8]`, `b[16]`, `c[17]`,
`s[18]`, `tex[21:19]`, `ap[26:24]`, `xn[28]`. -/
structure RasrVal where
  enable : Bool := false
  size : Nat := 0
  srd : Nat := 0
  b : Bool := false
  c : Bool := false
  s : Bool := false
  tex : Nat := 0
  ap : RasrAp := .NoAccess
  xn : Bool := false
  deriving DecidableEq, Repr

def RasrVal.const_default : RasrVal := {}

def RasrVal.with_enable (v : RasrVal) (x : Bool) : RasrVal := { v with enable := x }

def RasrVal.with_size (v : RasrVal) (n : Nat) : RasrVal := { v with size := n &&& 0x1F }

def RasrVal.with_srd (v : RasrVal) (n : Nat) : RasrVal := { v with srd := n &&& 0xFF }

def RasrVal.with_b (v : RasrVal) (x : Bool) : RasrVal := { v with b := x }

def RasrVal.with_c (v : RasrVal) (x : Bool) : RasrVal := { v with c := x }

def RasrVal.with_s (v : RasrVal) (x : Bool) : RasrVal := { v with s := x }

def RasrVal.with_tex (v : RasrVal) (n : Nat) : RasrVal := { v with tex := n &&& 0x7 }

def RasrVal.with_ap (v : RasrVal) (x : RasrAp) : RasrVal := { v with ap := x }

def RasrVal.with_xn (v : RasrVal) (x : Bool) : RasrVal := { v with xn := x }

/-- Modelled from the spec: MPU `CTRL` value, fields `enable[0]`,
`hfnmiena[1]`, `privdefena[2]` (section 6). -/
structure CtrlVal where
  enable : Bool := false
  hfnmiena : Bool := false
  privdefena : Bool := false
  deriving DecidableEq, Repr

def CtrlVal.with_enable (v : CtrlVal) (x : Bool) : CtrlVal := { v with enable := x }

def CtrlVal.with_hfnmiena (v : CtrlVal) (x : Bool) : CtrlVal := { v with hfnmiena := x }

def CtrlVal.with_privdefena (v : CtrlVal) (x : Bool) : CtrlVal := { v with privdefena := x }

/-- Modelled from the spec: MPU `RNR` value, field `region[7:0]`
(section 6). -/
structure RnrVal where
  region : Nat := 0
  deriving DecidableEq, Repr

def RnrVal.with_region (v : RnrVal) (n : Nat) : RnrVal := { v with region := n &&& 0xFF }

/-- `MpuRegion` from `protection_v7.rs`: one translated hardware region
descriptor. -/
structure MpuRegion where
  rbar : RbarVal
  rasr : RasrVal
  deriving DecidableEq, Repr

/-- `MpuRegion::const_default`. -/
def MpuRegion.const_default : MpuRegion :=
  { rbar := RbarVal.const_default, rasr := RasrVal.const_default }

/-- The internal `AlignedRegion` helper structure of `protection_v7.rs`. -/
structure AlignedRegion where
  base : Nat
  size_field : Nat
  srd_mask : Nat
  deriving DecidableEq, Repr

/-- The `while size > 1 { size >>= 1; bits += 1 }` loop of
`calculate_size_field`, computing `floor(log2 size)` (0 for inputs 0 and
1).  `fuel` bounds the iteration count; 33 iterations suffice for any
32-bit input. -/
def sizeBits : Nat → Nat → Nat
  | 0, _ => 0
  | fuel + 1, size => if size > 1 then sizeBits fuel (size / 2) + 1 else 0

/-- `MpuRegion::calculate_size_field`: `SIZE = log2(size) - 1`, minimum 4
(32 bytes). -/
def calculate_size_field (size_bytes : Nat) : Nat :=
  let bits := sizeBits 33 size_bytes
  if bits < 5 then 4 else bits - 1

/-- `start & !(region_size - 1)`: align `start` down to a multiple of
`region_size` (a power of two in every use).  `!x` on `u32` is
`0xFFFFFFFF ^^^ x`. -/
def alignDown (start region_size : Nat) : Nat :=
  start &&& (0xFFFFFFFF ^^^ (region_size - 1))

/-- First loop of `calculate_aligned_region`: starting from 32, double
`region_size` until it reaches `requested_size`, panicking
(`regionTooLarge`) if it would exceed `MAX_REGION_SIZE`; a doubling past
`u32` range would itself panic (`arithmeticOverflow`). -/
def growRegionSize : Nat → Nat → Nat → Except MpuError Nat
  | 0, _, _ => .error .outOfFuel
  | fuel + 1, requested_size, region_size =>
    if region_size < requested_size then
      let next := region_size * 2
      if next ≥ U32 then .error .arithmeticOverflow
      else if next > MAX_REGION_SIZE then .error .regionTooLarge
      else growRegionSize fuel requested_size next
    else .ok region_size

/-- Second loop of `calculate_aligned_region`:
`while aligned_base + region_size < end { region_size *= 2; aligned_base =
start & !(region_size - 1); if region_size > MAX_REGION_SIZE { panic } }`.
Evaluating `aligned_base + region_size` past `u32` range panics in const
context (`arithmeticOverflow`), as does the doubling itself. -/
def growAlignedBase : Nat → Nat → Nat → Nat → Nat → Except MpuError (Nat × Nat)
  | 0, _, _, _, _ => .error .outOfFuel
  | fuel + 1, start, end_, region_size, aligned_base =>
    if aligned_base + region_size ≥ U32 then .error .arithmeticOverflow
    else if aligned_base + region_size < end_ then
      let next := region_size * 2
      if next ≥ U32 then .error .arithmeticOverflow
      else
        let base := alignDown start next
        if next > MAX_REGION_SIZE then .error .regionTooLarge
        else growAlignedBase fuel start end_ next base
    else .ok (aligned_base, region_size)

/-- The overlap test of the sub-region loop: the sub-region with index `i`
(byte range `[aligned_base + i*subregion_size, aligned_base +
(i+1)*subregion_size)`) overlaps `[start, end)` iff
`subregion_start < end && subregion_end > start`. -/
def subregionOverlaps (aligned_base subregion_size start end_ i : Nat) : Bool :=
  let subregion_start := aligned_base + i * subregion_size
  let subregion_end := subregion_start + subregion_size
  decide (subregion_start < end_) && decide (subregion_end > start)

/-- The `while i < 8` sub-region-disable loop of
`calculate_aligned_region`: set bit `i` of `srd_mask` (`|= 1 << i`) for
every sub-region that does not overlap `[start, end)`.  `count` is the
number of remaining iterations (`8 - i`), making the recursion
structural. -/
def srdLoop (aligned_base subregion_size start end_ : Nat) :
    Nat → Nat → Nat → Nat
  | 0, _, srd_mask => srd_mask
  | count + 1, i, srd_mask =>
    let m :=
      if subregionOverlaps aligned_base subregion_size start end_ i then srd_mask
      else srd_mask ||| (1 <<< i)
    srdLoop aligned_base subregion_size start end_ count (i + 1) m

/-- `MpuRegion::calculate_aligned_region`: cover `[start, end)` by a
size-aligned power-of-two region with sub-region disables. -/
def calculate_aligned_region (start end_ : Nat) : Except MpuError AlignedRegion :=
  if end_ < start then .error .arithmeticOverflow
  else
    let requested_size := end_ - start
    if requested_size > MAX_REGION_SIZE then .error .regionTooLarge
    else
      match growRegionSize 33 requested_size 32 with
      | .error e => .error e
      | .ok rs =>
        match growAlignedBase 33 start end_ rs (alignDown start rs) with
        | .error e => .error e
        | .ok (aligned_base, region_size) =>
          let subregion_size := region_size / 8
          .ok { base := aligned_base
                size_field := calculate_size_field region_size
                srd_mask := srdLoop aligned_base subregion_size start end_ 8 0 0 }

/-- `MpuRegion::from_memory_region`: translate one `MemoryRegion` into an
`(RBAR, RASR)` descriptor pair. -/
def from_memory_region (region : MemoryRegion) : Except MpuError MpuRegion :=
  match calculate_aligned_region region.start region.end_ with
  | .error e => .error e
  | .ok aligned_region =>
    let a : Bool × Nat × Bool × Bool × Bool × RasrAp :=
      match region.ty with
      | .ReadOnlyData => (true, 0b001, true, true, true, .RoAny)
      | .ReadWriteData => (true, 0b001, false, true, true, .RwAny)
      | .ReadOnlyExecutable => (false, 0b001, true, true, true, .RoAny)
      | .ReadWriteExecutable => (false, 0b001, true, true, true, .RwAny)
      | .Device => (true, 0b000, true, false, true, .RoAny)
    let (xn, tex, s, c, b, ap) := a
    .ok { rbar := (RbarVal.const_default.with_valid false).with_addr aligned_region.base
          rasr := ((((((((RasrVal.const_default.with_enable true).with_size
            aligned_region.size_field).with_srd
            aligned_region.srd_mask).with_tex tex).with_s s).with_c c).with_b
            b).with_ap ap).with_xn xn }

/-- `true` iff `MpuRegion::from_memory_region` does not panic on `r`. -/
def translatesCleanly (r : MemoryRegion) : Bool :=
  match from_memory_region r with
  | .ok _ => true
  | .error _ => false

/-- `MemoryConfig` from `protection_v7.rs`: the translated descriptors plus
the source region list. -/
structure MemoryConfig where
  mpu_regions : List MpuRegion
  generic_regions : List MemoryRegion
  deriving DecidableEq, Repr

/-- The `while i < regions.len()` loop of `MemoryConfig::const_new`.  Each
step first evaluates `MpuRegion::from_memory_region(&regions[i])` (the
right operand of the Rust assignment, which panics first if the region is
untranslatable) and then stores it at `mpu_regions[i]`; the array indexing
panics (`tooManyRegions`) when `i` reaches `NUM_MPU_REGIONS` with source
regions remaining. -/
def constNewLoop : List MemoryRegion → Nat → List MpuRegion →
    Except MpuError (List MpuRegion)
  | [], _, acc => .ok acc
  | region :: rest, i, acc =>
    match from_memory_region region with
    | .error e => .error e
    | .ok mpu_region =>
      if i < NUM_MPU_REGIONS then constNewLoop rest (i + 1) (acc.set i mpu_region)
      else .error .tooManyRegions

/-- `MemoryConfig::const_new`: translate every region of the list into a
slot of an array of `NUM_MPU_REGIONS` descriptors initialized with
`MpuRegion::const_default()`. -/
def MemoryConfig.const_new (regions : List MemoryRegion) :
    Except MpuError MemoryConfig :=
  match constNewLoop regions 0 (List.replicate NUM_MPU_REGIONS MpuRegion.const_default) with
  | .error e => .error e
  | .ok mpu_regions => .ok { mpu_regions := mpu_regions, generic_regions := regions }

/-- One MMIO write performed by `MemoryConfig::write` / `MpuRegion::write`,
in program order. -/
inductive WriteEvent where
  | ctrl (v : CtrlVal)
  | rnr (v : RnrVal)
  | rbar (v : RbarVal)
  | rasr (v : RasrVal)
  deriving DecidableEq, Repr

/-- Modelled from the spec: the hardware-held MPU state — the `CTRL`
register, the `RNR` region-number register, and the per-slot latched
`(RBAR, RASR)` descriptor pairs (`NUM_MPU_REGIONS` slots). -/
structure MpuState where
  ctrl : CtrlVal
  rnr : Nat
  slots : List MpuRegion
  deriving DecidableEq, Repr

/-- Store an `RBAR` value into slot `n` (no-op on an out-of-range slot
number). -/
def setSlotRbar (slots : List MpuRegion) (n : Nat) (v : RbarVal) : List MpuRegion :=
  match slots[n]? with
  | some m => slots.set n { m with rbar := v }
  | none => slots

/-- Store an `RASR` value into slot `n` (no-op on an out-of-range slot
number). -/
def setSlotRasr (slots : List MpuRegion) (n : Nat) (v : RasrVal) : List MpuRegion :=
  match slots[n]? with
  | some m => slots.set n { m with rasr := v }
  | none => slots

/-- Modelled from the spec: the effect of one register write on the MPU
(sections 4.4 and 6).  `RBAR` and `RASR` writes land in the slot selected
by `RNR`, except that an `RBAR` write with its `VALID` bit set selects
(and updates) `RNR` itself from the `REGION` field. -/
def applyWrite (st : MpuState) (ev : WriteEvent) : MpuState :=
  match ev with
  | .ctrl v => { st with ctrl := v }
  | .rnr v => { st with rnr := v.region }
  | .rbar v =>
    let n := if v.valid then v.region else st.rnr
    { st with rnr := n, slots := setSlotRbar st.slots n v }
  | .rasr v => { st with slots := setSlotRasr st.slots st.rnr v }

/-- `MpuRegion::write`: select the region via `RNR`, then write `RBAR` and
`RASR`. -/
def MpuRegion.writeEvents (r : MpuRegion) (region_number : Nat) : List WriteEvent :=
  [.rnr (({} : RnrVal).with_region region_number),
   .rbar r.rbar,
   .rasr r.rasr]

/-- The `for (index, region) in self.mpu_regions.iter().enumerate()` loop
of `MemoryConfig::write`. -/
def allRegionWriteEvents : List MpuRegion → Nat → List WriteEvent
  | [], _ => []
  | r :: rest, index => r.writeEvents index ++ allRegionWriteEvents rest (index + 1)

/-- The ordered sequence of register writes performed by
`MemoryConfig::write` starting from MPU state `st`: disable the MPU
(`enable := false`, `hfnmiena := false`, `privdefena := true`, by
read-modify-write of the current `CTRL`), program every slot, then
re-enable (read-modify-write of the value written first). -/
def MemoryConfig.writeEvents (c : MemoryConfig) (st : MpuState) : List WriteEvent :=
  let disabled := ((st.ctrl.with_enable false).with_hfnmiena false).with_privdefena true
  .ctrl disabled ::
    (allRegionWriteEvents c.mpu_regions 0 ++ [.ctrl (disabled.with_enable true)])

/-- `MemoryConfig::write` (the `install()` of the spec): the MPU state
after performing all register writes in order. -/
def MemoryConfig.write (c : MemoryConfig) (st : MpuState) : MpuState :=
  (c.writeEvents st).foldl applyWrite st

/-! ### Arithmetic facts about the embedded helpers -/

/-- Bit `j` of `1 <<< i` is set exactly at `j = i`. -/
lemma one_shiftLeft_testBit (i j : Nat) : (1 <<< i).testBit j = decide (i = j) := by
  rw [Nat.one_shiftLeft, Nat.testBit_two_pow]

/-- On 32-bit inputs, `start & !(2^k - 1)` clears the low `k` bits:
it equals `start - start % 2^k`. -/
lemma alignDown_two_pow {s k : Nat} (hk : k ≤ 32) (hs : s < U32) :
    alignDown s (2 ^ k) = s - s % 2 ^ k := by
  have hmask : (0xFFFFFFFF : Nat) ^^^ (2 ^ k - 1) = (2 ^ (32 - k) - 1) <<< k := by
    apply Nat.eq_of_testBit_eq
    intro i
    rw [Nat.testBit_xor, Nat.testBit_shiftLeft,
      show (0xFFFFFFFF : Nat) = 2 ^ 32 - 1 by norm_num,
      Nat.testBit_two_pow_sub_one, Nat.testBit_two_pow_sub_one,
      Nat.testBit_two_pow_sub_one]
    by_cases h1 : i < k <;> by_cases h2 : i < 32 <;>
      simp [h1, h2] <;> omega
  have hs32 : ∀ i, 32 ≤ i → s.testBit i = false := by
    intro i hi
    exact Nat.testBit_lt_two_pow (lt_of_lt_of_le hs (by
      show (0x100000000 : Nat) ≤ 2 ^ i
      calc (0x100000000 : Nat) = 2 ^ 32 := by norm_num
      _ ≤ 2 ^ i := Nat.pow_le_pow_right (by omega) hi))
  have hshift : s &&& ((2 ^ (32 - k) - 1) <<< k) = (s >>> k) <<< k := by
    apply Nat.eq_of_testBit_eq
    intro i
    rw [Nat.testBit_and, Nat.testBit_shiftLeft, Nat.testBit_shiftLeft,
      Nat.testBit_two_pow_sub_one, Nat.testBit_shiftRight]
    by_cases h1 : k ≤ i
    · by_cases h2 : i < 32
      · have : k + (i - k) = i := by omega
        simp [h1, this]
        omega
      · have h3 : s.testBit i = false := hs32 i (by omega)
        have : k + (i - k) = i := by omega
        simp [h1, h3, this]
    · simp [h1]
  have hdiv : (s >>> k) <<< k = s - s % 2 ^ k := by
    rw [Nat.shiftLeft_eq, Nat.shiftRight_eq_div_pow]
    have h := Nat.div_add_mod s (2 ^ k)
    rw [Nat.mul_comm] at h
    omega
  rw [alignDown, hmask, hshift, hdiv]

/-- The `while size > 1` loop computes the exponent of a power of two,
given enough fuel. -/
lemma sizeBits_two_pow : ∀ (k fuel : Nat), k < fuel → sizeBits fuel (2 ^ k) = k := by
  intro k
  induction k with
  | zero =>
    intro fuel hf
    match fuel, hf with
    | f + 1, _ => simp [sizeBits]
  | succ k ih =>
    intro fuel hf
    match fuel, hf with
    | f + 1, hf =>
      have h2 : 2 ^ (k + 1) > 1 := by
        have hp : 0 < (2 : Nat) ^ k := Nat.pow_pos (by omega)
        rw [pow_succ]
        omega
      have hhalf : 2 ^ (k + 1) / 2 = 2 ^ k := by
        rw [Nat.pow_succ]
        exact Nat.mul_div_cancel _ (by omega)
      rw [sizeBits, if_pos h2, hhalf, ih f (by omega)]

/-- `calculate_size_field` on the power of two `2^k` (32 bytes ≤ size ≤
4 GB) yields `k - 1`. -/
lemma calculate_size_field_two_pow {k : Nat} (h5 : 5 ≤ k) (h32 : k ≤ 32) :
    calculate_size_field (2 ^ k) = k - 1 := by
  rw [calculate_size_field, sizeBits_two_pow k 33 (by omega)]
  simp only [if_neg (by omega : ¬ k < 5)]

/-- Soundness of the first growth loop: a successful result is at least
the requested size and at least the initial size, is the initial size
times a power of two, and respects the 2 GB cap when the initial size
does. -/
lemma growRegionSize_ok : ∀ {fuel req rs out : Nat},
    growRegionSize fuel req rs = .ok out →
    req ≤ out ∧ rs ≤ out ∧ (∃ j, out = rs * 2 ^ j) ∧
      (rs ≤ MAX_REGION_SIZE → out ≤ MAX_REGION_SIZE) := by
  intro fuel
  induction fuel with
  | zero => intro req rs out h; exact absurd h (by simp [growRegionSize])
  | succ f ih =>
    intro req rs out h
    rw [growRegionSize] at h
    by_cases hlt : rs < req
    · rw [if_pos hlt] at h
      by_cases hov : rs * 2 ≥ U32
      · rw [if_pos hov] at h; exact absurd h (by simp)
      · rw [if_neg hov] at h
        by_cases hmax : rs * 2 > MAX_REGION_SIZE
        · rw [if_pos hmax] at h; exact absurd h (by simp)
        · rw [if_neg hmax] at h
          obtain ⟨h1, h2, ⟨j, hj⟩, h4⟩ := ih h
          refine ⟨h1, by omega, ⟨j + 1, ?_⟩, fun _ => h4 (by omega)⟩
          rw [hj]; ring
    · rw [if_neg hlt] at h
      cases h
      exact ⟨by omega, le_refl _, ⟨0, by ring⟩, fun h => h⟩

/-- Soundness of the second growth loop: on success the final region
covers `[*, end)` without 32-bit overflow, the final size is the initial
one times a power of two and respects the 2 GB cap, and the final base is
the final size's alignment of `start` whenever the initial base was the
initial size's. -/
lemma growAlignedBase_ok : ∀ {fuel s e rs base b rs' : Nat},
    growAlignedBase fuel s e rs base = .ok (b, rs') →
    e ≤ b + rs' ∧ b + rs' < U32 ∧ rs ≤ rs' ∧ (∃ j, rs' = rs * 2 ^ j) ∧
      (rs ≤ MAX_REGION_SIZE → rs' ≤ MAX_REGION_SIZE) ∧
      (base = alignDown s rs → b = alignDown s rs') := by
  intro fuel
  induction fuel with
  | zero => intro s e rs base b rs' h; exact absurd h (by simp [growAlignedBase])
  | succ f ih =>
    intro s e rs base b rs' h
    rw [growAlignedBase] at h
    by_cases hov : base + rs ≥ U32
    · rw [if_pos hov] at h; exact absurd h (by simp)
    · rw [if_neg hov] at h
      by_cases hcond : base + rs < e
      · rw [if_pos hcond] at h
        by_cases hov2 : rs * 2 ≥ U32
        · rw [if_pos hov2] at h; exact absurd h (by simp)
        · rw [if_neg hov2] at h
          by_cases hmax : rs * 2 > MAX_REGION_SIZE
          · rw [if_pos hmax] at h; exact absurd h (by simp)
          · rw [if_neg hmax] at h
            obtain ⟨h1, h2, h3, ⟨j, hj⟩, h5, h6⟩ := ih h
            refine ⟨h1, h2, by omega, ⟨j + 1, ?_⟩, fun _ => h5 (by omega),
              fun _ => h6 rfl⟩
            rw [hj]; ring
      · rw [if_neg hcond] at h
        cases h
        exact ⟨by omega, by omega, le_refl _, ⟨0, by ring⟩, fun h => h,
          fun h => h⟩

/-- Bit-level characterization of the sub-region-disable loop: bit `j`
of the result is set iff it was set in the accumulator, or `j` is one of
the indices processed by the remaining `count` iterations (starting at
`i`) and its sub-region does not overlap `[start, end)`. -/
lemma srdLoop_testBit (ab sub s e : Nat) : ∀ (count i mask j : Nat),
    (srdLoop ab sub s e count i mask).testBit j =
      (mask.testBit j ||
        (decide (i ≤ j) && decide (j < i + count) &&
          !subregionOverlaps ab sub s e j)) := by
  intro count
  induction count with
  | zero =>
    intro i mask j
    rw [srdLoop]
    by_cases h1 : i ≤ j <;> by_cases h2 : j < i + 0 <;> simp [h1, h2]
  | succ c ih =>
    intro i mask j
    rw [srdLoop]
    by_cases hov : subregionOverlaps ab sub s e i
    · rw [if_pos hov, ih]
      by_cases hj : j = i
      · subst hj
        simp [hov]
      · congr 1
        congr 2
        · exact decide_eq_decide.mpr (by omega)
        · exact decide_eq_decide.mpr (by omega)
    · rw [if_neg hov, ih, Nat.testBit_or, one_shiftLeft_testBit]
      by_cases hj : j = i
      · subst hj
        simp [hov]
      · have hij : decide (i = j) = false := by simp; omega
        rw [hij]
        simp only [Bool.or_false]
        congr 1
        congr 2
        · exact decide_eq_decide.mpr (by omega)
        · exact decide_eq_decide.mpr (by omega)

/-- Central characterization of `calculate_aligned_region` on success:
with `rs := 2^(size_field + 1)` the emitted region size, the size field
lies in `{4..30}` and is what `calculate_size_field` computes for `rs`,
the base is `start` aligned down to `rs` (so a multiple of `rs`, at most
`start`), the region covers `[start, end)` within the 32-bit address
space, `rs` is between 32 bytes and 2 GB and at least the requested
size, and the srd mask is the sub-region-disable loop's output for
sub-region stride `rs / 8`. -/
lemma calculate_aligned_region_ok {s e : Nat} {r : AlignedRegion}
    (hse : s < e) (he : e < U32)
    (h : calculate_aligned_region s e = .ok r) :
    32 ≤ 2 ^ (r.size_field + 1) ∧
    2 ^ (r.size_field + 1) ≤ MAX_REGION_SIZE ∧
    4 ≤ r.size_field ∧ r.size_field ≤ 30 ∧
    r.base = s - s % 2 ^ (r.size_field + 1) ∧
    e ≤ r.base + 2 ^ (r.size_field + 1) ∧
    r.base + 2 ^ (r.size_field + 1) < U32 ∧
    r.size_field = calculate_size_field (2 ^ (r.size_field + 1)) ∧
    r.srd_mask = srdLoop r.base (2 ^ (r.size_field + 1) / 8) s e 8 0 0 ∧
    e - s ≤ 2 ^ (r.size_field + 1) := by
  rw [calculate_aligned_region] at h
  rw [if_neg (by omega : ¬ e < s)] at h
  by_cases hbig : e - s > MAX_REGION_SIZE
  · rw [if_pos hbig] at h; exact absurd h (by simp)
  · rw [if_neg hbig] at h
    split at h
    · exact absurd h (by simp)
    · rename_i rs0 hg
      obtain ⟨hg1, hg2, ⟨j0, hj0⟩, hg4⟩ := growRegionSize_ok hg
      have hrs0max : rs0 ≤ MAX_REGION_SIZE := hg4 (by rw [MAX_REGION_SIZE]; omega)
      split at h
      · exact absurd h (by simp)
      · rename_i b rs1 hga
        obtain ⟨ha1, ha2, ha3, ⟨j1, hj1⟩, ha5, ha6⟩ := growAlignedBase_ok hga
        have hb : b = alignDown s rs1 := ha6 rfl
        have hrs1max : rs1 ≤ MAX_REGION_SIZE := ha5 hrs0max
        -- rs1 is the power of two 2 ^ (5 + j0 + j1), with exponent ≤ 31.
        have hrs1pow : rs1 = 2 ^ (5 + j0 + j1) := by
          rw [hj1, hj0]
          rw [show (32 : Nat) = 2 ^ 5 by norm_num]
          rw [← pow_add, ← pow_add]
        have hexp : 5 + j0 + j1 ≤ 31 := by
          by_contra hc
          have h32 : 32 ≤ 5 + j0 + j1 := by omega
          have hle : (2 : Nat) ^ 32 ≤ 2 ^ (5 + j0 + j1) :=
            Nat.pow_le_pow_right (by omega) h32
          have : (0x100000000 : Nat) ≤ rs1 := by
            rw [hrs1pow]
            calc (0x100000000 : Nat) = 2 ^ 32 := by norm_num
            _ ≤ 2 ^ (5 + j0 + j1) := hle
          rw [MAX_REGION_SIZE] at hrs1max
          omega
        have hsf : calculate_size_field rs1 = 5 + j0 + j1 - 1 := by
          rw [hrs1pow]
          exact calculate_size_field_two_pow (by omega) (by omega)
        -- extract the record equation
        rw [Except.ok.injEq] at h
        subst h
        dsimp only
        have hsf1 : 5 + j0 + j1 - 1 + 1 = 5 + j0 + j1 := by omega
        rw [hsf, hsf1, ← hrs1pow]
        have halign : alignDown s rs1 = s - s % rs1 := by
          rw [hrs1pow]
          exact alignDown_two_pow (by omega) (by omega)
        refine ⟨by
            rw [hrs1pow, show (32 : Nat) = 2 ^ 5 by norm_num]
            exact Nat.pow_le_pow_right (by omega) (by omega),
          hrs1max, by omega, by omega, by rw [hb, halign],
          ha1, ha2, ?_, rfl, by omega⟩
        rw [hsf]

/-- The first growth loop exits immediately when the current size already
covers the request. -/
lemma growRegionSize_exit {f req rs : Nat} (h : ¬ rs < req) :
    growRegionSize (f + 1) req rs = .ok rs := by
  rw [growRegionSize, if_neg h]

/-- The second growth loop exits immediately when the aligned region
already covers `end` without 32-bit overflow. -/
lemma growAlignedBase_exit {f s e rs base : Nat} (hov : ¬ base + rs ≥ U32)
    (hc : ¬ base + rs < e) :
    growAlignedBase (f + 1) s e rs base = .ok (base, rs) := by
  rw [growAlignedBase, if_neg hov, if_neg hc]

/-- A request that fits inside a single aligned 32-byte block is covered
by the minimum region: the emitted size field is 4. -/
lemma calculate_aligned_region_small_block {s e : Nat} {r : AlignedRegion}
    (h1 : s < e) (h2 : e < U32) (hfit : e ≤ s - s % 32 + 32)
    (h : calculate_aligned_region s e = .ok r) : r.size_field = 4 := by
  have halign : alignDown s 32 = s - s % 32 := by
    rw [show (32 : Nat) = 2 ^ 5 by norm_num]
    exact alignDown_two_pow (by omega) (by omega)
  have hg32 : growRegionSize 33 (e - s) 32 = .ok 32 := by
    rw [show (33 : Nat) = 32 + 1 from rfl]
    exact growRegionSize_exit (by have := Nat.mod_le s 32; omega)
  rw [calculate_aligned_region, if_neg (by omega : ¬ e < s),
    if_neg (by rw [MAX_REGION_SIZE]; omega : ¬ e - s > MAX_REGION_SIZE)] at h
  split at h
  · rename_i err hg
    rw [hg32] at hg
    exact absurd hg (by simp)
  · rename_i rs0 hg
    rw [hg32] at hg
    have hrs0 : rs0 = 32 := by
      have := Except.ok.inj hg
      omega
    subst hrs0
    by_cases hovf : alignDown s 32 + 32 ≥ U32
    · -- the top-of-memory overflow case contradicts success
      split at h
      · rename_i err hga
        exact absurd h (by simp)
      · rename_i b rs1 hga
        rw [show (33 : Nat) = 32 + 1 from rfl, growAlignedBase, if_pos hovf] at hga
        exact absurd hga (by simp)
    · have hga32 : growAlignedBase 33 s e 32 (alignDown s 32) =
          .ok (alignDown s 32, 32) := by
        rw [show (33 : Nat) = 32 + 1 from rfl]
        exact growAlignedBase_exit hovf (by rw [halign]; omega)
      split at h
      · rename_i err hga
        rw [hga32] at hga
        exact absurd hga (by simp)
      · rename_i b rs1 hga
        rw [hga32] at hga
        have hpair := Except.ok.inj hga
        rw [Prod.mk.injEq] at hpair
        obtain ⟨hb, hrs1⟩ := hpair
        subst hb hrs1
        rw [Except.ok.injEq] at h
        subst h
        dsimp only
        rw [show (32 : Nat) = 2 ^ 5 by norm_num]
        exact calculate_size_field_two_pow (by omega) (by omega)


/-! ### The claims -/

/-- C1: for every memory range with `start < end` and `end - start ≤ 2^31`
(addresses being 32-bit) on which the translator succeeds, the emitted
aligned region — whose size is `rs = 2^(size_field + 1)`, a power of two
with `32 ≤ rs ≤ 2^31` — has a base that is a multiple of `rs`, at most
`start`, and satisfies `base + rs ≥ end`. -/
theorem aligned_region_covers_request (s e : Nat) (r : AlignedRegion)
    (h1 : s < e) (h2 : e < U32) (h3 : e - s ≤ 0x80000000)
    (h : calculate_aligned_region s e = .ok r) :
    ∃ rs, rs = 2 ^ (r.size_field + 1) ∧
      r.base % rs = 0 ∧ r.base ≤ s ∧ e ≤ r.base + rs ∧
      32 ≤ rs ∧ rs ≤ 0x80000000 := by
  obtain ⟨hrs32, hrsmax, hsf4, hsf30, hbase, hcov, hov32, hcsf, hmask, hreq⟩ :=
    calculate_aligned_region_ok h1 h2 h
  rw [MAX_REGION_SIZE] at hrsmax
  refine ⟨2 ^ (r.size_field + 1), rfl, ?_, ?_, hcov, hrs32, hrsmax⟩
  · have hdm := Nat.div_add_mod s (2 ^ (r.size_field + 1))
    have hb : r.base = 2 ^ (r.size_field + 1) * (s / 2 ^ (r.size_field + 1)) := by
      omega
    rw [hb]
    exact Nat.mul_mod_right _ _
  · have := Nat.mod_le s (2 ^ (r.size_field + 1))
    omega

/-- Witness for C1 at the concrete aligned 16 KiB request
`[0x20000000, 0x20004000)` (spec scenario 1). -/
theorem aligned_region_covers_request_witness :
    calculate_aligned_region 0x20000000 0x20004000 =
      .ok { base := 0x20000000, size_field := 13, srd_mask := 0 } ∧
    (∃ rs, rs = 2 ^ (13 + 1) ∧
      (0x20000000 : Nat) % rs = 0 ∧ (0x20000000 : Nat) ≤ 0x20000000 ∧
      (0x20004000 : Nat) ≤ 0x20000000 + rs ∧ 32 ≤ rs ∧ rs ≤ 0x80000000) :=
  ⟨by decide,
   aligned_region_covers_request 0x20000000 0x20004000
     { base := 0x20000000, size_field := 13, srd_mask := 0 }
     (by decide) (by decide) (by decide) (by decide)⟩

/-- C2: under the same conditions, bit `i` of the emitted `srd_mask`
(for `i < 8`) is 0 exactly when sub-region `i` — the byte range
`[base + i*(rs/8), base + (i+1)*(rs/8))` for `rs = 2^(size_field+1)` —
overlaps the requested `[start, end)`; in particular no overlapping
sub-region is marked disabled. -/
theorem srd_bit_clear_iff_overlap (s e : Nat) (r : AlignedRegion)
    (h1 : s < e) (h2 : e < U32) (h3 : e - s ≤ 0x80000000)
    (h : calculate_aligned_region s e = .ok r) (i : Nat) (hi : i < 8) :
    r.srd_mask.testBit i = false ↔
      (∃ x, r.base + i * (2 ^ (r.size_field + 1) / 8) ≤ x ∧
            x < r.base + (i + 1) * (2 ^ (r.size_field + 1) / 8) ∧
            s ≤ x ∧ x < e) := by
  obtain ⟨hrs32, hrsmax, hsf4, hsf30, hbase, hcov, hov32, hcsf, hmask, hreq⟩ :=
    calculate_aligned_region_ok h1 h2 h
  have hsub : 4 ≤ 2 ^ (r.size_field + 1) / 8 := by
    have := Nat.div_le_div_right (c := 8) hrs32
    simpa using this
  have hexp : (i + 1) * (2 ^ (r.size_field + 1) / 8) =
      i * (2 ^ (r.size_field + 1) / 8) + 2 ^ (r.size_field + 1) / 8 := by ring
  rw [hmask, srdLoop_testBit]
  simp only [Nat.zero_testBit, Bool.false_or, subregionOverlaps, Nat.zero_add,
    Nat.zero_le, decide_True, hi, Bool.true_and, Bool.not_and,
    Bool.or_eq_false_iff, Bool.not_eq_false', decide_eq_true_eq,
    Bool.not_eq_false]
  constructor
  · rintro ⟨hlt, hgt⟩
    by_cases hxs : s ≤ r.base + i * (2 ^ (r.size_field + 1) / 8)
    · exact ⟨r.base + i * (2 ^ (r.size_field + 1) / 8), le_refl _, by omega,
        hxs, hlt⟩
    · exact ⟨s, by omega, by omega, le_refl _, h1⟩
  · rintro ⟨x, hx1, hx2, hx3, hx4⟩
    omega

/-- Witness for C2 at the concrete 128-byte aligned request
`[0x20000100, 0x20000180)`, sub-region 2. -/
theorem srd_bit_clear_iff_overlap_witness :
    calculate_aligned_region 0x20000100 0x20000180 =
      .ok { base := 0x20000100, size_field := 6, srd_mask := 0 } ∧
    ((0 : Nat).testBit 2 = false ↔
      (∃ x, (0x20000100 : Nat) + 2 * (2 ^ (6 + 1) / 8) ≤ x ∧
            x < 0x20000100 + (2 + 1) * (2 ^ (6 + 1) / 8) ∧
            0x20000100 ≤ x ∧ x < 0x20000180)) :=
  ⟨by decide,
   srd_bit_clear_iff_overlap 0x20000100 0x20000180
     { base := 0x20000100, size_field := 6, srd_mask := 0 }
     (by decide) (by decide) (by decide) (by decide) 2 (by decide)⟩

/-- C3: under the same conditions, every byte address `x` inside an
enabled sub-region (one whose `srd_mask` bit is 0) lies within
`[start - (rs/8 - 1), end + (rs/8 - 1)]` for `rs = 2^(size_field+1)`:
the over-provisioning beyond the requested range is bounded by one byte
less than the sub-region stride on either side. -/
theorem enabled_subregion_overprovision_bound (s e : Nat) (r : AlignedRegion)
    (h1 : s < e) (h2 : e < U32) (h3 : e - s ≤ 0x80000000)
    (h : calculate_aligned_region s e = .ok r) (i x : Nat) (hi : i < 8)
    (hbit : r.srd_mask.testBit i = false)
    (hx1 : r.base + i * (2 ^ (r.size_field + 1) / 8) ≤ x)
    (hx2 : x < r.base + (i + 1) * (2 ^ (r.size_field + 1) / 8)) :
    s - (2 ^ (r.size_field + 1) / 8 - 1) ≤ x ∧
    x ≤ e + (2 ^ (r.size_field + 1) / 8 - 1) := by
  obtain ⟨hrs32, hrsmax, hsf4, hsf30, hbase, hcov, hov32, hcsf, hmask, hreq⟩ :=
    calculate_aligned_region_ok h1 h2 h
  have hexp : (i + 1) * (2 ^ (r.size_field + 1) / 8) =
      i * (2 ^ (r.size_field + 1) / 8) + 2 ^ (r.size_field + 1) / 8 := by ring
  rw [hmask, srdLoop_testBit] at hbit
  simp only [Nat.zero_testBit, Bool.false_or, subregionOverlaps, Nat.zero_add,
    Nat.zero_le, decide_True, hi, Bool.true_and, Bool.not_eq_false',
    Bool.and_eq_true, decide_eq_true_eq] at hbit
  obtain ⟨hlt, hgt⟩ := hbit
  omega

/-- Witness for C3 at the concrete 256-byte aligned request
`[0x1000, 0x1100)` (the range of the source's security-warning example),
sub-region 0, address 0x1000. -/
theorem enabled_subregion_overprovision_bound_witness :
    calculate_aligned_region 0x1000 0x1100 =
      .ok { base := 0x1000, size_field := 7, srd_mask := 0 } ∧
    ((0x1000 : Nat) - (2 ^ (7 + 1) / 8 - 1) ≤ 0x1000 ∧
      (0x1000 : Nat) ≤ 0x1100 + (2 ^ (7 + 1) / 8 - 1)) :=
  ⟨by decide,
   enabled_subregion_overprovision_bound 0x1000 0x1100
     { base := 0x1000, size_field := 7, srd_mask := 0 }
     (by decide) (by decide) (by decide) (by decide) 0 0x1000 (by decide)
     (by decide) (by decide) (by decide)⟩

/-- C4 counterexample: the 10-byte request `[30, 40)` is smaller than 32
bytes, yet the translator emits `size_field = 5` (a 64-byte region), not
the claimed minimum 4: the request straddles an aligned 32-byte boundary,
so the second growth loop doubles the region. -/
theorem size_field_small_request_counterexample :
    (40 : Nat) - 30 < 32 ∧
    calculate_aligned_region 30 40 =
      .ok { base := 0, size_field := 5, srd_mask := 0xE7 } ∧
    ¬ (5 : Nat) = 4 := by
  refine ⟨by decide, by decide, by decide⟩

/-- C4 (amended): on every successful translation the emitted
`size_field` equals `log2 rs - 1` for the chosen region size
`rs = 2^(size_field+1)` — it is exactly what the repeated-right-shift
`calculate_size_field` computes for `rs` — and lies in `{4..30}`; the
minimum 4 is emitted for every request smaller than 32 bytes that fits
inside a single aligned 32-byte block (a sub-32-byte request straddling a
32-byte boundary may yield a larger field). -/
theorem size_field_log2_bounds (s e : Nat) (r : AlignedRegion)
    (h1 : s < e) (h2 : e < U32) (h3 : e - s ≤ 0x80000000)
    (h : calculate_aligned_region s e = .ok r) :
    r.size_field = Nat.log2 (2 ^ (r.size_field + 1)) - 1 ∧
    r.size_field = calculate_size_field (2 ^ (r.size_field + 1)) ∧
    4 ≤ r.size_field ∧ r.size_field ≤ 30 ∧
    (e ≤ s - s % 32 + 32 → r.size_field = 4) := by
  obtain ⟨hrs32, hrsmax, hsf4, hsf30, hbase, hcov, hov32, hcsf, hmask, hreq⟩ :=
    calculate_aligned_region_ok h1 h2 h
  refine ⟨?_, hcsf, hsf4, hsf30, fun hfit => ?_⟩
  · rw [Nat.log2_two_pow]
    omega
  · exact calculate_aligned_region_small_block h1 h2 hfit h

/-- Witness for C4 at the concrete 16-byte aligned request
`[0x20000000, 0x20000010)`: the minimum size field 4 is emitted. -/
theorem size_field_log2_bounds_witness :
    calculate_aligned_region 0x20000000 0x20000010 =
      .ok { base := 0x20000000, size_field := 4, srd_mask := 0xF0 } ∧
    ((4 : Nat) = Nat.log2 (2 ^ (4 + 1)) - 1 ∧
      (4 : Nat) = calculate_size_field (2 ^ (4 + 1)) ∧
      4 ≤ 4 ∧ (4 : Nat) ≤ 30 ∧
      ((0x20000010 : Nat) ≤ 0x20000000 - 0x20000000 % 32 + 32 → (4 : Nat) = 4)) :=
  ⟨by decide,
   size_field_log2_bounds 0x20000000 0x20000010
     { base := 0x20000000, size_field := 4, srd_mask := 0xF0 }
     (by decide) (by decide) (by decide) (by decide)⟩


/-- C5: the attribute tuple `(xn, tex, S, C, B, ap)` carried in the `RASR`
value emitted by `from_memory_region` is a function of the region kind
alone, with exactly the spec section 4.2 table values (booleans written
`true`/`false` for the table's 1/0). -/
theorem attribute_tuple_from_kind (reg : MemoryRegion) (m : MpuRegion)
    (h : from_memory_region reg = .ok m) :
    (m.rasr.xn, m.rasr.tex, m.rasr.s, m.rasr.c, m.rasr.b, m.rasr.ap) =
      match reg.ty with
      | .ReadOnlyData => (true, 1, true, true, true, RasrAp.RoAny)
      | .ReadWriteData => (true, 1, false, true, true, RasrAp.RwAny)
      | .ReadOnlyExecutable => (false, 1, true, true, true, RasrAp.RoAny)
      | .ReadWriteExecutable => (false, 1, true, true, true, RasrAp.RwAny)
      | .Device => (true, 0, true, false, true, RasrAp.RoAny) := by
  rw [from_memory_region] at h
  split at h
  · exact absurd h (by simp)
  · rename_i ar har
    cases hty : reg.ty <;>
      (rw [hty] at h; have hm := Except.ok.inj h; subst hm; rfl)

/-- Witness for C5 at the concrete `Device` region
`[0x40000000, 0x40001000)`. -/
theorem attribute_tuple_from_kind_witness :
    from_memory_region { ty := .Device, start := 0x40000000, end_ := 0x40001000 } =
      .ok { rbar := { valid := false, region := 0, addr := 0x40000000 },
            rasr := { enable := true, size := 11, srd := 0, b := true, c := false,
                      s := true, tex := 0, ap := .RoAny, xn := true } } ∧
    ((true, (0 : Nat), true, false, true, RasrAp.RoAny) =
      (true, 0, true, false, true, RasrAp.RoAny)) :=
  ⟨by decide,
   attribute_tuple_from_kind
     { ty := .Device, start := 0x40000000, end_ := 0x40001000 }
     { rbar := { valid := false, region := 0, addr := 0x40000000 },
       rasr := { enable := true, size := 11, srd := 0, b := true, c := false,
                 s := true, tex := 0, ap := .RoAny, xn := true } }
     (by decide)⟩

/-- C6 counterexample: on `ReadWriteData, [0x2000_0100, 0x2000_0200)` the
translator does NOT emit the claimed `base=0x2000_0000`, `size_field=8`
(rs=512), `srd_mask=0x0F`: the requested base is in fact 256-byte aligned,
so no growth or sub-region disabling occurs. -/
theorem translator_scenario4_counterexample :
    calculate_aligned_region 0x20000100 0x20000200 ≠
      .ok { base := 0x20000000, size_field := 8, srd_mask := 0x0F } := by decide

/-- C6 (amended): for `ReadWriteData, [0x2000_0100, 0x2000_0200)` — a
256-byte range whose base is already 256-byte aligned — the translator
emits `base = 0x2000_0100`, `rs = 256` (`size_field = 7`), and
`srd_mask = 0x00` (all eight sub-regions enabled). -/
theorem translator_scenario4_actual :
    calculate_aligned_region 0x20000100 0x20000200 =
      .ok { base := 0x20000100, size_field := 7, srd_mask := 0x00 } ∧
    from_memory_region { ty := .ReadWriteData, start := 0x20000100, end_ := 0x20000200 } =
      .ok { rbar := { valid := false, region := 0, addr := 0x20000100 },
            rasr := { enable := true, size := 7, srd := 0x00, b := true, c := true,
                      s := false, tex := 1, ap := .RwAny, xn := true } } :=
  ⟨by decide, by decide⟩

/-- C7: the translator does reject oversized requests
(`end - start > 2^31` fails with the RegionTooLarge panic), but it does
NOT succeed on every other input with `start < end`: on the 31-byte
request `[0xFFFFFFE0, 0xFFFFFFFF)` at the top of the address space the
`aligned_base + region_size` check overflows `u32` (0xFFFFFFE0 + 32 =
2^32) and the const evaluation panics, even though the legal aligned
region `base = 0xFFFFFFE0`, `rs = 32` covers the range within the PMSAv7
limits. -/
theorem translator_overflow_on_valid_input :
    calculate_aligned_region 0 0x80000001 = .error .regionTooLarge ∧
    calculate_aligned_region 0xFFFFFFE0 0xFFFFFFFF = .error .arithmeticOverflow ∧
    (0xFFFFFFE0 : Nat) < 0xFFFFFFFF ∧
    (0xFFFFFFFF : Nat) - 0xFFFFFFE0 ≤ 0x80000000 ∧
    (0xFFFFFFE0 : Nat) % 32 = 0 ∧
    (0xFFFFFFFF : Nat) ≤ 0xFFFFFFE0 + 32 ∧
    (32 : Nat) ≤ 0x80000000 := by decide

/-- C10: the `ReadWriteData` region `[0x8000_0000, 0xFFFF_FFFF)` satisfies
the data-model invariants (`start < end`, `end - start ≤ 2^31`), yet its
translation fails: the covering aligned region (`base = 0x8000_0000`,
`rs = 2^31`) ends exactly at `2^32`, so the 32-bit evaluation of
`aligned_base + region_size` in the coverage check overflows and the const
evaluation panics. -/
theorem upper_half_region_translation_panics :
    (0x80000000 : Nat) < 0xFFFFFFFF ∧
    (0xFFFFFFFF : Nat) - 0x80000000 ≤ 0x80000000 ∧
    calculate_aligned_region 0x80000000 0xFFFFFFFF = .error .arithmeticOverflow ∧
    from_memory_region { ty := .ReadWriteData, start := 0x80000000, end_ := 0xFFFFFFFF } =
      .error .arithmeticOverflow := by decide


/-- A region translates cleanly exactly when `from_memory_region`
returns a descriptor. -/
lemma translatesCleanly_iff {r : MemoryRegion} :
    translatesCleanly r = true ↔ ∃ m, from_memory_region r = .ok m := by
  rw [translatesCleanly]
  split
  · rename_i m hm
    exact ⟨fun _ => ⟨m, hm⟩, fun _ => rfl⟩
  · rename_i err herr
    constructor
    · intro hc
      exact absurd hc (by simp)
    · rintro ⟨m, hm⟩
      rw [herr] at hm
      exact absurd hm (by simp)

/-- `NUM_MPU_REGIONS` is 8 on this target. -/
lemma NUM_MPU_REGIONS_eq : NUM_MPU_REGIONS = 8 := rfl

/-- The `const_new` loop succeeds on a list of cleanly-translating
regions that fits in the remaining capacity, and leaves every slot it
does not touch (index below `i` or at or beyond `i + length`)
unchanged. -/
lemma constNewLoop_all_clean_ok :
    ∀ (rest : List MemoryRegion) (i : Nat) (acc : List MpuRegion),
      (∀ r ∈ rest, translatesCleanly r = true) →
      i + rest.length ≤ NUM_MPU_REGIONS →
      ∃ out, constNewLoop rest i acc = .ok out ∧ out.length = acc.length ∧
        (∀ j, i + rest.length ≤ j ∨ j < i → out[j]? = acc[j]?) := by
  intro rest
  induction rest with
  | nil =>
    intro i acc hclean hcap
    exact ⟨acc, rfl, rfl, fun j hj => rfl⟩
  | cons r rest ih =>
    intro i acc hclean hcap
    obtain ⟨m, hm⟩ := translatesCleanly_iff.mp (hclean r (by simp))
    rw [NUM_MPU_REGIONS_eq, List.length_cons] at hcap
    simp only [constNewLoop, hm]
    rw [if_pos (by rw [NUM_MPU_REGIONS_eq]; omega)]
    obtain ⟨out, hloop, hlen, hpres⟩ := ih (i + 1) (acc.set i m)
      (fun x hx => hclean x (by simp [hx]))
      (by rw [NUM_MPU_REGIONS_eq]; omega)
    refine ⟨out, hloop, by rw [hlen, List.length_set], fun j hj => ?_⟩
    rw [List.length_cons] at hj
    rw [hpres j (by omega)]
    exact List.getElem?_set_ne (by omega)

/-- The `const_new` loop hits the array-bounds panic (`TooManyRegions`)
when cleanly-translating regions remain beyond the capacity. -/
lemma constNewLoop_too_many :
    ∀ (rest : List MemoryRegion) (i : Nat) (acc : List MpuRegion),
      (∀ r ∈ rest, translatesCleanly r = true) →
      NUM_MPU_REGIONS < i + rest.length → i ≤ NUM_MPU_REGIONS →
      constNewLoop rest i acc = .error .tooManyRegions := by
  intro rest
  induction rest with
  | nil =>
    intro i acc hclean hover hle
    simp only [List.length_nil] at hover
    omega
  | cons r rest ih =>
    intro i acc hclean hover hle
    obtain ⟨m, hm⟩ := translatesCleanly_iff.mp (hclean r (by simp))
    simp only [constNewLoop, hm]
    rw [List.length_cons] at hover
    by_cases hi : i < NUM_MPU_REGIONS
    · rw [if_pos hi]
      exact ih (i + 1) (acc.set i m) (fun x hx => hclean x (by simp [hx]))
        (by omega) (by omega)
    · rw [if_neg hi]

/-- C8 counterexample: a list of `NUM_MPU_REGIONS + 1` regions whose
first element is untranslatable (its 3.75 GB span exceeds the 2 GB cap)
makes `const_new` fail with the RegionTooLarge panic of the translator —
reached before any array-bounds check — not with TooManyRegions. -/
theorem const_new_too_many_counterexample :
    NUM_MPU_REGIONS <
      (List.replicate 9 (⟨.ReadWriteData, 0, 0xF0000000⟩ : MemoryRegion)).length ∧
    MemoryConfig.const_new
      (List.replicate 9 (⟨.ReadWriteData, 0, 0xF0000000⟩ : MemoryRegion)) ≠
      .error .tooManyRegions ∧
    MemoryConfig.const_new
      (List.replicate 9 (⟨.ReadWriteData, 0, 0xF0000000⟩ : MemoryRegion)) =
      .error .regionTooLarge :=
  ⟨by decide, by decide, by decide⟩

/-- C8 (amended): when every region of the source list translates
cleanly, `const_new` fails with `TooManyRegions` exactly on lists longer
than `NUM_MPU_REGIONS` (in particular on any cleanly-translating list of
length `NUM_MPU_REGIONS + 1`), and succeeds on every list of length at
most `NUM_MPU_REGIONS`, leaving each slot at or beyond the list length
holding the inert `const_default` descriptor, whose enable bit is clear.
(When some region fails translation, that panic — e.g. RegionTooLarge —
can preempt the bounds check.) -/
theorem const_new_capacity (regions : List MemoryRegion) :
    (NUM_MPU_REGIONS < regions.length →
      (∀ r ∈ regions, translatesCleanly r = true) →
      MemoryConfig.const_new regions = .error .tooManyRegions) ∧
    (regions.length ≤ NUM_MPU_REGIONS →
      (∀ r ∈ regions, translatesCleanly r = true) →
      MpuRegion.const_default.rasr.enable = false ∧
      ∃ cfg, MemoryConfig.const_new regions = .ok cfg ∧
        cfg.mpu_regions.length = NUM_MPU_REGIONS ∧
        cfg.generic_regions = regions ∧
        ∀ j, regions.length ≤ j → j < NUM_MPU_REGIONS →
          cfg.mpu_regions[j]? = some MpuRegion.const_default) := by
  constructor
  · intro hover hclean
    rw [MemoryConfig.const_new,
      constNewLoop_too_many regions 0 _ hclean (by omega)
        (by rw [NUM_MPU_REGIONS_eq]; omega)]
  · intro hcap hclean
    obtain ⟨out, hloop, hlen, hpres⟩ := constNewLoop_all_clean_ok regions 0
      (List.replicate NUM_MPU_REGIONS MpuRegion.const_default) hclean (by omega)
    rw [List.length_replicate] at hlen
    refine ⟨rfl, { mpu_regions := out, generic_regions := regions },
      by rw [MemoryConfig.const_new, hloop], hlen, rfl, fun j hj hj8 => ?_⟩
    have hp := hpres j (by omega)
    rw [hp, List.getElem?_replicate, if_pos hj8]

/-- Witness for C8: nine cleanly-translating copies of the 256-byte
region `[0x20001000, 0x20001100)` overflow the eight slots with
`TooManyRegions`, while the single 128 KiB flash region `[0, 0x20000)`
(spec scenario 5) constructs successfully with seven inert slots. -/
theorem const_new_capacity_witness :
    MemoryConfig.const_new
      (List.replicate 9 (⟨.ReadWriteData, 0x20001000, 0x20001100⟩ : MemoryRegion)) =
      .error .tooManyRegions ∧
    (MpuRegion.const_default.rasr.enable = false ∧
      ∃ cfg, MemoryConfig.const_new
          [(⟨.ReadOnlyExecutable, 0, 0x20000⟩ : MemoryRegion)] = .ok cfg ∧
        cfg.mpu_regions.length = NUM_MPU_REGIONS ∧
        cfg.generic_regions = [(⟨.ReadOnlyExecutable, 0, 0x20000⟩ : MemoryRegion)] ∧
        ∀ j, [(⟨.ReadOnlyExecutable, 0, 0x20000⟩ : MemoryRegion)].length ≤ j →
          j < NUM_MPU_REGIONS →
          cfg.mpu_regions[j]? = some MpuRegion.const_default) :=
  ⟨(const_new_capacity _).1 (by decide) (by decide),
   (const_new_capacity _).2 (by decide) (by decide)⟩


/-- Storing a value below 256 into an 8-bit field keeps it. -/
lemma and255_eq {n : Nat} (h : n < 256) : n &&& 255 = n := by
  rw [show (255 : Nat) = 2 ^ 8 - 1 from rfl, Nat.and_pow_two_sub_one_eq_mod,
    Nat.mod_eq_of_lt h]

/-- An eight-slot list (the translated descriptor array, or the
hardware's slot bank) is a chain of exactly eight conses. -/
lemma length_eight_eq {α : Type} {l : List α} (h : l.length = 8) :
    ∃ v0, ∃ v1, ∃ v2, ∃ v3, ∃ v4, ∃ v5, ∃ v6, ∃ v7,
      l = v0 :: v1 :: v2 :: v3 :: v4 :: v5 :: v6 :: v7 :: [] := by
  match l, h with
  | v0 :: v1 :: v2 :: v3 :: v4 :: v5 :: v6 :: v7 :: [], _ =>
    exact ⟨v0, v1, v2, v3, v4, v5, v6, v7, rfl⟩

/-- C9: for every memory configuration whose descriptors leave the `RBAR`
`VALID` bit clear (as every descriptor produced by the translator does)
and every starting MPU state with the full complement of slots, after
`MemoryConfig::write` the MPU has `CTRL.enable = 1` and
`CTRL.privdefena = 1` (and `hfnmiena = 0`), every hardware slot holds
exactly the in-memory descriptor of the same index, and the performed
write sequence is: one disabling `CTRL` write (`enable = 0`,
`hfnmiena = 0`, `privdefena = 1`), then for each slot `i` a `RNR` write
selecting `i` followed by that slot's `RBAR` and `RASR` writes, then one
re-enabling `CTRL` write. -/
theorem install_programs_all_slots (c : MemoryConfig) (st : MpuState)
    (hc : c.mpu_regions.length = NUM_MPU_REGIONS)
    (hs : st.slots.length = NUM_MPU_REGIONS)
    (hvalid : ∀ m ∈ c.mpu_regions, m.rbar.valid = false) :
    (c.write st).ctrl.enable = true ∧
    (c.write st).ctrl.privdefena = true ∧
    (c.write st).ctrl.hfnmiena = false ∧
    (∀ i, i < NUM_MPU_REGIONS → (c.write st).slots[i]? = c.mpu_regions[i]?) ∧
    (c.writeEvents st).length = 3 * NUM_MPU_REGIONS + 2 ∧
    (∃ v, (c.writeEvents st)[0]? = some (.ctrl v) ∧ v.enable = false ∧
      v.hfnmiena = false ∧ v.privdefena = true ∧
      (c.writeEvents st)[3 * NUM_MPU_REGIONS + 1]? =
        some (.ctrl (v.with_enable true)) ∧
      (v.with_enable true).enable = true ∧
      (v.with_enable true).privdefena = true) ∧
    (∀ i r, i < NUM_MPU_REGIONS → c.mpu_regions[i]? = some r →
      (c.writeEvents st)[3 * i + 1]? = some (.rnr { region := i }) ∧
      (c.writeEvents st)[3 * i + 2]? = some (.rbar r.rbar) ∧
      (c.writeEvents st)[3 * i + 3]? = some (.rasr r.rasr)) := by
  rw [NUM_MPU_REGIONS_eq] at hc hs
  obtain ⟨r0, r1, r2, r3, r4, r5, r6, r7, hr⟩ := length_eight_eq hc
  obtain ⟨s0, s1, s2, s3, s4, s5, s6, s7, hsl⟩ := length_eight_eq hs
  obtain ⟨regs, gen⟩ := c
  obtain ⟨ctrl, rnr, slots⟩ := st
  simp only [] at hr hsl
  subst hr hsl
  have hv0 : r0.rbar.valid = false := hvalid r0 (by simp)
  have hv1 : r1.rbar.valid = false := hvalid r1 (by simp)
  have hv2 : r2.rbar.valid = false := hvalid r2 (by simp)
  have hv3 : r3.rbar.valid = false := hvalid r3 (by simp)
  have hv4 : r4.rbar.valid = false := hvalid r4 (by simp)
  have hv5 : r5.rbar.valid = false := hvalid r5 (by simp)
  have hv6 : r6.rbar.valid = false := hvalid r6 (by simp)
  have hv7 : r7.rbar.valid = false := hvalid r7 (by simp)
  refine ⟨?_, ?_, ?_, ?_, ?_, ?_, ?_⟩
  · simp [MemoryConfig.write, MemoryConfig.writeEvents, allRegionWriteEvents,
      MpuRegion.writeEvents, applyWrite, setSlotRbar, setSlotRasr,
      RnrVal.with_region, CtrlVal.with_enable, CtrlVal.with_hfnmiena,
      CtrlVal.with_privdefena, and255_eq, hv0, hv1, hv2, hv3, hv4, hv5, hv6, hv7]
  · simp [MemoryConfig.write, MemoryConfig.writeEvents, allRegionWriteEvents,
      MpuRegion.writeEvents, applyWrite, setSlotRbar, setSlotRasr,
      RnrVal.with_region, CtrlVal.with_enable, CtrlVal.with_hfnmiena,
      CtrlVal.with_privdefena, and255_eq, hv0, hv1, hv2, hv3, hv4, hv5, hv6, hv7]
  · simp [MemoryConfig.write, MemoryConfig.writeEvents, allRegionWriteEvents,
      MpuRegion.writeEvents, applyWrite, setSlotRbar, setSlotRasr,
      RnrVal.with_region, CtrlVal.with_enable, CtrlVal.with_hfnmiena,
      CtrlVal.with_privdefena, and255_eq, hv0, hv1, hv2, hv3, hv4, hv5, hv6, hv7]
  · intro i hi
    rw [NUM_MPU_REGIONS_eq] at hi
    interval_cases i <;>
      simp [MemoryConfig.write, MemoryConfig.writeEvents, allRegionWriteEvents,
        MpuRegion.writeEvents, applyWrite, setSlotRbar, setSlotRasr,
        RnrVal.with_region, CtrlVal.with_enable, CtrlVal.with_hfnmiena,
        CtrlVal.with_privdefena, and255_eq, hv0, hv1, hv2, hv3, hv4, hv5, hv6, hv7]
  · simp [MemoryConfig.writeEvents, allRegionWriteEvents, MpuRegion.writeEvents,
      NUM_MPU_REGIONS_eq]
  · refine ⟨((ctrl.with_enable false).with_hfnmiena false).with_privdefena true,
      ?_, ?_, ?_, ?_, ?_, ?_, ?_⟩ <;>
      simp [MemoryConfig.writeEvents, allRegionWriteEvents, MpuRegion.writeEvents,
        CtrlVal.with_enable, CtrlVal.with_hfnmiena, CtrlVal.with_privdefena,
        NUM_MPU_REGIONS_eq]
  · intro i r hi hri
    rw [NUM_MPU_REGIONS_eq] at hi
    interval_cases i <;>
      (simp only [List.getElem?_cons_zero, List.getElem?_cons_succ,
        Option.some.injEq] at hri;
       subst hri <;>
       simp [MemoryConfig.writeEvents, allRegionWriteEvents,
         MpuRegion.writeEvents, RnrVal.with_region, and255_eq])


/-- Witness for C9: installing the all-default configuration from an MPU
state with the opposite control bits set. -/
theorem install_programs_all_slots_witness :
    (({ mpu_regions := List.replicate 8 MpuRegion.const_default, generic_regions := [] } : MemoryConfig).write ({ ctrl := { enable := true, hfnmiena := true, privdefena := false }, rnr := 3, slots := List.replicate 8 MpuRegion.const_default } : MpuState)).ctrl.enable = true ∧
    (({ mpu_regions := List.replicate 8 MpuRegion.const_default, generic_regions := [] } : MemoryConfig).write ({ ctrl := { enable := true, hfnmiena := true, privdefena := false }, rnr := 3, slots := List.replicate 8 MpuRegion.const_default } : MpuState)).ctrl.privdefena = true ∧
    (({ mpu_regions := List.replicate 8 MpuRegion.const_default, generic_regions := [] } : MemoryConfig).write ({ ctrl := { enable := true, hfnmiena := true, privdefena := false }, rnr := 3, slots := List.replicate 8 MpuRegion.const_default } : MpuState)).ctrl.hfnmiena = false ∧
    (∀ i, i < NUM_MPU_REGIONS →
      (({ mpu_regions := List.replicate 8 MpuRegion.const_default, generic_regions := [] } : MemoryConfig).write ({ ctrl := { enable := true, hfnmiena := true, privdefena := false }, rnr := 3, slots := List.replicate 8 MpuRegion.const_default } : MpuState)).slots[i]? = ({ mpu_regions := List.replicate 8 MpuRegion.const_default, generic_regions := [] } : MemoryConfig).mpu_regions[i]?) ∧
    (({ mpu_regions := List.replicate 8 MpuRegion.const_default, generic_regions := [] } : MemoryConfig).writeEvents ({ ctrl := { enable := true, hfnmiena := true, privdefena := false }, rnr := 3, slots := List.replicate 8 MpuRegion.const_default } : MpuState)).length = 3 * NUM_MPU_REGIONS + 2 ∧
    (∃ v, (({ mpu_regions := List.replicate 8 MpuRegion.const_default, generic_regions := [] } : MemoryConfig).writeEvents ({ ctrl := { enable := true, hfnmiena := true, privdefena := false }, rnr := 3, slots := List.replicate 8 MpuRegion.const_default } : MpuState))[0]? = some (.ctrl v) ∧ v.enable = false ∧
      v.hfnmiena = false ∧ v.privdefena = true ∧
      (({ mpu_regions := List.replicate 8 MpuRegion.const_default, generic_regions := [] } : MemoryConfig).writeEvents ({ ctrl := { enable := true, hfnmiena := true, privdefena := false }, rnr := 3, slots := List.replicate 8 MpuRegion.const_default } : MpuState))[3 * NUM_MPU_REGIONS + 1]? =
        some (.ctrl (v.with_enable true)) ∧
      (v.with_enable true).enable = true ∧
      (v.with_enable true).privdefena = true) ∧
    (∀ i r, i < NUM_MPU_REGIONS → ({ mpu_regions := List.replicate 8 MpuRegion.const_default, generic_regions := [] } : MemoryConfig).mpu_regions[i]? = some r →
      (({ mpu_regions := List.replicate 8 MpuRegion.const_default, generic_regions := [] } : MemoryConfig).writeEvents ({ ctrl := { enable := true, hfnmiena := true, privdefena := false }, rnr := 3, slots := List.replicate 8 MpuRegion.const_default } : MpuState))[3 * i + 1]? = some (.rnr { region := i }) ∧
      (({ mpu_regions := List.replicate 8 MpuRegion.const_default, generic_regions := [] } : MemoryConfig).writeEvents ({ ctrl := { enable := true, hfnmiena := true, privdefena := false }, rnr := 3, slots := List.replicate 8 MpuRegion.const_default } : MpuState))[3 * i + 2]? = some (.rbar r.rbar) ∧
      (({ mpu_regions := List.replicate 8 MpuRegion.const_default, generic_regions := [] } : MemoryConfig).writeEvents ({ ctrl := { enable := true, hfnmiena := true, privdefena := false }, rnr := 3, slots := List.replicate 8 MpuRegion.const_default } : MpuState))[3 * i + 3]? = some (.rasr r.rasr)) :=
  install_programs_all_slots ({ mpu_regions := List.replicate 8 MpuRegion.const_default, generic_regions := [] } : MemoryConfig) ({ ctrl := { enable := true, hfnmiena := true, privdefena := false }, rnr := 3, slots := List.replicate 8 MpuRegion.const_default } : MpuState) (by decide) (by decide) (by decide)

end Pmsav7
